import Mathlib

/-!
Verification of the content-block translation layer of the bytebot agent
(file src/packages/bytebot-agent/src/openai/openai.constants.ts, class
OpenAIService, methods formatMessagesForOpenAI and formatOpenAIResponse).

The first part models JSON values together with the JavaScript builtins
JSON.stringify (compact and 2-space indented) and JSON.parse, which the
translator uses for tool-call arguments and for textual fallbacks.
JSON.parse is modelled as a canonical recursive-descent parser; the key
fact proved is that it inverts the serializer.
-/

mutual

inductive Json where
  | null : Json
  | bool (b : Bool) : Json
  | num (n : Int) : Json
  | str (s : String) : Json
  | arr (xs : JsonList) : Json
  | obj (kvs : JsonMembers) : Json

inductive JsonList where
  | nil : JsonList
  | cons (hd : Json) (tl : JsonList) : JsonList

inductive JsonMembers where
  | nil : JsonMembers
  | cons (key : String) (val : Json) (tl : JsonMembers) : JsonMembers

end

/-- Decimal digit to character, as used by number serialization. -/
def digitChar (d : Nat) : Char := Char.ofNat (48 + d)

/-- Lower-case hexadecimal digit character for values below 16. -/
def hexDig (n : Nat) : Char :=
  if n < 10 then Char.ofNat (48 + n) else Char.ofNat (87 + n)

/-- Little-endian decimal digits of a natural number, fuel-driven so that
everything reduces inside the kernel. -/
def digitsLE : Nat → Nat → List Nat
  | 0, _ => []
  | fuel + 1, n => if n = 0 then [] else n % 10 :: digitsLE fuel (n / 10)

/-- Decimal character representation of a natural number. -/
def natChars (x : Nat) : List Char :=
  if x = 0 then ['0'] else ((digitsLE (x + 1) x).map digitChar).reverse

/-- Decimal character representation of an integer, as JSON.stringify
prints an integral JavaScript number. -/
def intChars (n : Int) : List Char :=
  if n < 0 then '-' :: natChars n.natAbs else natChars n.natAbs

/-- Escape of one character inside a JSON string literal, following the
escapes produced by JSON.stringify. -/
def escapeChar (c : Char) : List Char :=
  if c = '"' then ['\\', '"']
  else if c = '\\' then ['\\', '\\']
  else if c = '\n' then ['\\', 'n']
  else if c = '\r' then ['\\', 'r']
  else if c = '\t' then ['\\', 't']
  else if c.toNat = 8 then ['\\', 'b']
  else if c.toNat = 12 then ['\\', 'f']
  else if c.toNat < 32 then
    ['\\', 'u', '0', '0', hexDig (c.toNat / 16), hexDig (c.toNat % 16)]
  else [c]

def escapeChars : List Char → List Char
  | [] => []
  | c :: cs => escapeChar c ++ escapeChars cs

/-- Serialized JSON string literal, quotes included. -/
def strChars (s : String) : List Char := '"' :: escapeChars s.data ++ ['"']

mutual

/-- Compact serialization of a JSON value, the model of
JSON.stringify(value). -/
def jChars : Json → List Char
  | .num n => intChars n
  | .str s => strChars s
  | .arr .nil => ['[', ']']
  | .arr (.cons h t) => '[' :: (jChars h ++ listChars t) ++ [']']
  | .obj .nil => ['{', '}']
  | .obj (.cons k v t) => '{' :: (strChars k ++ ':' :: (jChars v ++ membersChars t)) ++ ['}']
  | .bool b => if b then "true".data else "false".data
  | .null => "null".data

def listChars : JsonList → List Char
  | .nil => []
  | .cons h t => ',' :: jChars h ++ listChars t

def membersChars : JsonMembers → List Char
  | .nil => []
  | .cons k v t => ',' :: (strChars k ++ ':' :: (jChars v ++ membersChars t))

end

def Json.stringify (j : Json) : String := String.mk (jChars j)

def indentChars (n : Nat) : List Char := List.replicate n ' '

mutual

/-- Two-space indented serialization of a JSON value at a given indent
level, the model of JSON.stringify(value, null, 2). -/
def jPretty (ind : Nat) : Json → List Char
  | .arr .nil => ['[', ']']
  | .arr (.cons h t) =>
      '[' :: '\n' :: (indentChars (ind + 2) ++ jPretty (ind + 2) h ++ prettyElems (ind + 2) t
        ++ '\n' :: indentChars ind ++ [']'])
  | .obj .nil => ['{', '}']
  | .obj (.cons k v t) =>
      '{' :: '\n' :: (indentChars (ind + 2) ++ strChars k ++ ':' :: ' ' ::
        (jPretty (ind + 2) v ++ prettyMembers (ind + 2) t ++ '\n' :: indentChars ind ++ ['}']))
  | j => jChars j

def prettyElems (ind : Nat) : JsonList → List Char
  | .nil => []
  | .cons h t => ',' :: '\n' :: (indentChars ind ++ jPretty ind h ++ prettyElems ind t)

def prettyMembers (ind : Nat) : JsonMembers → List Char
  | .nil => []
  | .cons k v t =>
      ',' :: '\n' :: (indentChars ind ++ strChars k ++ ':' :: ' ' ::
        (jPretty ind v ++ prettyMembers ind t))

end

def Json.stringifyPretty (j : Json) : String := String.mk (jPretty 0 j)

mutual

/-- Node count of a JSON value, used as a fuel bound for the parser. -/
def sizeJ : Json → Nat
  | .arr xs => sizeL xs + 1
  | .obj kvs => sizeM kvs + 1
  | _ => 1

def sizeL : JsonList → Nat
  | .nil => 0
  | .cons h t => sizeJ h + sizeL t + 1

def sizeM : JsonMembers → Nat
  | .nil => 0
  | .cons _ v t => sizeJ v + sizeM t + 1

end

/-- Value of a hexadecimal digit character. -/
def hexVal (c : Char) : Option Nat :=
  if c.isDigit then some (c.toNat - 48)
  else if 97 ≤ c.toNat ∧ c.toNat ≤ 102 then some (c.toNat - 87)
  else if 65 ≤ c.toNat ∧ c.toNat ≤ 70 then some (c.toNat - 55)
  else none

/-- Unescape of a single-character JSON escape. -/
def unesc (c : Char) : Option Char :=
  if c = '"' then some '"'
  else if c = '\\' then some '\\'
  else if c = '/' then some '/'
  else if c = 'n' then some '\n'
  else if c = 'r' then some '\r'
  else if c = 't' then some '\t'
  else if c = 'b' then some (Char.ofNat 8)
  else if c = 'f' then some (Char.ofNat 12)
  else none

/-- Parse the body of a JSON string literal after the opening quote,
returning the unescaped characters and the remaining input. -/
def parseStrAux : List Char → Option (List Char × List Char)
  | [] => none
  | '"' :: r => some ([], r)
  | '\\' :: 'u' :: h1 :: h2 :: h3 :: h4 :: r =>
    match hexVal h1, hexVal h2, hexVal h3, hexVal h4 with
    | some a, some b, some c, some d =>
      match parseStrAux r with
      | some (s, r2) => some (Char.ofNat (4096 * a + 256 * b + 16 * c + d) :: s, r2)
      | none => none
    | _, _, _, _ => none
  | '\\' :: c :: r =>
    match unesc c with
    | some d =>
      match parseStrAux r with
      | some (s, r2) => some (d :: s, r2)
      | none => none
    | none => none
  | c :: r =>
    match parseStrAux r with
    | some (s, r2) => some (c :: s, r2)
    | none => none

/-- Consume a maximal run of decimal digits, folding them onto an
accumulator. -/
def parseNatAux : List Char → Nat → Nat × List Char
  | [], acc => (acc, [])
  | c :: r, acc =>
    if c.isDigit then parseNatAux r (10 * acc + (c.toNat - 48)) else (acc, c :: r)

/-- Parse a natural number literal; fails unless the input starts with a
digit. -/
def parseNat : List Char → Option (Nat × List Char)
  | [] => none
  | c :: r => if c.isDigit then some (parseNatAux (c :: r) 0) else none

/-- Recognize an exact sequence of characters, returning the rest. -/
def expectChars : List Char → List Char → Option (List Char)
  | [], l => some l
  | p :: ps, c :: r => if c = p then expectChars ps r else none
  | _ :: _, [] => none

mutual

/-- Fuel-driven recursive-descent parser for canonical JSON text. -/
def parseV : Nat → List Char → Option (Json × List Char)
  | 0, _ => none
  | _ + 1, [] => none
  | fuel + 1, c :: r =>
    if c = 'n' then
      match expectChars ['u', 'l', 'l'] r with
      | some r2 => some (.null, r2)
      | none => none
    else if c = 't' then
      match expectChars ['r', 'u', 'e'] r with
      | some r2 => some (.bool true, r2)
      | none => none
    else if c = 'f' then
      match expectChars ['a', 'l', 's', 'e'] r with
      | some r2 => some (.bool false, r2)
      | none => none
    else if c = '"' then
      match parseStrAux r with
      | some (s, r2) => some (.str (String.mk s), r2)
      | none => none
    else if c = '[' then
      match r with
      | ']' :: r2 => some (.arr .nil, r2)
      | _ =>
        match parseV fuel r with
        | some (h, r2) =>
          match parseElems fuel r2 with
          | some (t, r3) => some (.arr (.cons h t), r3)
          | none => none
        | none => none
    else if c = '{' then
      match r with
      | '}' :: r2 => some (.obj .nil, r2)
      | '"' :: r2 =>
        match parseStrAux r2 with
        | some (k, r3) =>
          match r3 with
          | ':' :: r4 =>
            match parseV fuel r4 with
            | some (v, r5) =>
              match parseMembers fuel r5 with
              | some (t, r6) => some (.obj (.cons (String.mk k) v t), r6)
              | none => none
            | none => none
          | _ => none
        | none => none
      | _ => none
    else if c = '-' then
      match parseNat r with
      | some (n, r2) => some (.num (-(n : Int)), r2)
      | none => none
    else
      match parseNat (c :: r) with
      | some (n, r2) => some (.num ((n : Int)), r2)
      | none => none

def parseElems : Nat → List Char → Option (JsonList × List Char)
  | _, [] => none
  | fuel, c :: r =>
    if c = ']' then some (.nil, r)
    else if c = ',' then
      match fuel with
      | 0 => none
      | fuel2 + 1 =>
        match parseV fuel2 r with
        | some (h, r2) =>
          match parseElems fuel2 r2 with
          | some (t, r3) => some (.cons h t, r3)
          | none => none
        | none => none
    else none

def parseMembers : Nat → List Char → Option (JsonMembers × List Char)
  | _, [] => none
  | fuel, c :: r =>
    if c = '}' then some (.nil, r)
    else if c = ',' then
      match fuel, r with
      | _, [] => none
      | 0, _ => none
      | fuel2 + 1, c2 :: r2 =>
        if c2 = '"' then
          match parseStrAux r2 with
          | some (k, r3) =>
            match r3 with
            | ':' :: r4 =>
              match parseV fuel2 r4 with
              | some (v, r5) =>
                match parseMembers fuel2 r5 with
                | some (t, r6) => some (.cons (String.mk k) v t, r6)
                | none => none
              | none => none
            | _ => none
          | none => none
        else none
    else none

end

/-- Model of JSON.parse: succeeds exactly when the whole input is a
canonical JSON document. -/
def Json.parse (s : String) : Option Json :=
  match parseV (s.data.length + 1) s.data with
  | some (j, []) => some j
  | _ => none

/-!
Domain model of the neutral conversation representation.

Modelled from the spec: the MessageContentBlock union, its type guards and
the Role enum are declared in the shared packages (bytebot/shared,
prisma/client), which are not among the provided sources; their shapes
follow section 3 of the specification. The translator methods themselves
are translated from openai.constants.ts.
-/

inductive Role where
  | USER : Role
  | ASSISTANT : Role

structure ImageSource where
  media_type : String
  data : String

mutual

inductive ContentBlock where
  | text (text : String) : ContentBlock
  | toolUse (id : String) (name : String) (input : Json) : ContentBlock
  | toolResult (tool_use_id : String) (content : BlockList) : ContentBlock
  | thinking (thinking : String) (signature : String) : ContentBlock
  | image (source : ImageSource) : ContentBlock
  | userAction (content : BlockList) : ContentBlock
  | other (json : Json) : ContentBlock

inductive BlockList where
  | nil : BlockList
  | cons (hd : ContentBlock) (tl : BlockList) : BlockList

end

structure Message where
  role : Role
  content : BlockList

/-- Modelled from the spec: the shared-package guard recognizing
UserAction blocks. -/
def isUserActionContentBlock : ContentBlock → Bool
  | .userAction _ => true
  | _ => false

/-- Modelled from the spec: the shared-package guard for computer tool-use
blocks; section 4.1 of the spec treats every ToolUse child of a UserAction
uniformly, so the guard recognizes ToolUse blocks. -/
def isComputerToolUseContentBlock : ContentBlock → Bool
  | .toolUse _ _ _ => true
  | _ => false

/-- Modelled from the spec: the shared-package guard recognizing Image
blocks. -/
def isImageContentBlock : ContentBlock → Bool
  | .image _ => true
  | _ => false

def BlockList.all (p : ContentBlock → Bool) : BlockList → Bool
  | .nil => true
  | .cons b bs => p b && BlockList.all p bs

def BlockList.any (p : ContentBlock → Bool) : BlockList → Bool
  | .nil => false
  | .cons b bs => p b || BlockList.any p bs

def BlockList.append : BlockList → BlockList → BlockList
  | .nil, ys => ys
  | .cons b bs, ys => .cons b (BlockList.append bs ys)

/-- The content property read by the flatMap of the all-UserAction fast
path; blocks without children yield the empty list. -/
def blockContent : ContentBlock → BlockList
  | .userAction cs => cs
  | .toolResult _ cs => cs
  | _ => .nil

def flattenUserActions : BlockList → BlockList
  | .nil => .nil
  | .cons b bs => BlockList.append (blockContent b) (flattenUserActions bs)

mutual

/-- Modelled from the spec: the runtime JSON shape of a content block,
with the type tags of the shared MessageContentType enum; it models the
value JSON.stringify sees in the fallback paths of the translator. -/
def encodeBlock : ContentBlock → Json
  | .text t => .obj (.cons "type" (.str "text") (.cons "text" (.str t) .nil))
  | .toolUse id name input =>
      .obj (.cons "type" (.str "tool_use") (.cons "id" (.str id)
        (.cons "name" (.str name) (.cons "input" input .nil))))
  | .toolResult tuid cs =>
      .obj (.cons "type" (.str "tool_result") (.cons "tool_use_id" (.str tuid)
        (.cons "content" (.arr (encodeBlocks cs)) .nil)))
  | .thinking th sig =>
      .obj (.cons "type" (.str "thinking") (.cons "thinking" (.str th)
        (.cons "signature" (.str sig) .nil)))
  | .image src =>
      .obj (.cons "type" (.str "image") (.cons "source"
        (.obj (.cons "media_type" (.str src.media_type)
          (.cons "data" (.str src.data) .nil))) .nil))
  | .userAction cs =>
      .obj (.cons "type" (.str "user_action")
        (.cons "content" (.arr (encodeBlocks cs)) .nil))
  | .other j => j

def encodeBlocks : BlockList → JsonList
  | .nil => .nil
  | .cons b bs => .cons (encodeBlock b) (encodeBlocks bs)

end

/-- Wire content entry of a message item (section 6 of the spec). -/
inductive ContentPart where
  | inputText (text : String) : ContentPart
  | outputText (text : String) : ContentPart
  | inputImage (detail : String) (image_url : String) : ContentPart

/-- Outbound wire item (section 6 of the spec). -/
inductive WireItem where
  | message (role : String) (content : List ContentPart) : WireItem
  | functionCall (call_id : String) (name : String) (arguments : String) : WireItem
  | functionCallOutput (call_id : String) (output : String) : WireItem
  | reasoning (id : String) (encrypted_content : String) (summary : List String) : WireItem

/-- The inline image reference convention used by the translator. -/
def dataUrl (src : ImageSource) : String :=
  "data:" ++ src.media_type ++ ";base64," ++ src.data

/-- Translation of one flattened child on the all-UserAction fast path
(source lines 242 to 267). -/
def formatUserActionChild (block : ContentBlock) : List WireItem :=
  if isComputerToolUseContentBlock block then
    match block with
    | .toolUse _ name input =>
        [.message "user" [.inputText ("User performed action: " ++ name ++ "\n"
          ++ Json.stringifyPretty input)]]
    | _ => []
  else if isImageContentBlock block then
    match block with
    | .image src => [.message "user" [.inputImage "high" (dataUrl src)]]
    | _ => []
  else []

def formatUserActionBlocks : BlockList → List WireItem
  | .nil => []
  | .cons b bs => formatUserActionChild b ++ formatUserActionBlocks bs

/-- Translation of the inner entries of a ToolResult block (source lines
326 to 353): a Text entry becomes one function-call-output item, an Image
entry becomes a placeholder function-call-output item followed by a user
message carrying the image, anything else produces nothing. -/
def formatToolResultContent (tool_use_id : String) : ContentBlock → List WireItem
  | .text t => [.functionCallOutput tool_use_id t]
  | .image src =>
      [.functionCallOutput tool_use_id "screenshot",
       .message "user" [.inputImage "high" (dataUrl src)]]
  | _ => []

def formatToolResultBlocks (tool_use_id : String) : BlockList → List WireItem
  | .nil => []
  | .cons b bs =>
      formatToolResultContent tool_use_id b ++ formatToolResultBlocks tool_use_id bs

/-- Translation of a single content block on the mixed-content path,
dispatching on the block tag (the switch of source lines 270 to 369); the
final three cases are the default branch serializing the block as JSON,
which in the source also receives top-level Image and UserAction blocks
since the switch has no case for their tags. -/
def formatBlock (role : Role) : ContentBlock → List WireItem
  | .text t =>
    match role with
    | .USER => [.message "user" [.inputText t]]
    | .ASSISTANT => [.message "assistant" [.outputText t]]
  | .toolUse id name input =>
    match role with
    | .ASSISTANT => [.functionCall id name (Json.stringify input)]
    | .USER => []
  | .thinking th sig => [.reasoning sig th []]
  | .toolResult tuid cs => formatToolResultBlocks tuid cs
  | .image src =>
      [.message "user" [.inputText (Json.stringify (encodeBlock (.image src)))]]
  | .userAction cs =>
      [.message "user" [.inputText (Json.stringify (encodeBlock (.userAction cs)))]]
  | .other j => [.message "user" [.inputText (Json.stringify (encodeBlock (.other j)))]]

def formatBlocks (role : Role) : BlockList → List WireItem
  | .nil => []
  | .cons b bs => formatBlock role b ++ formatBlocks role bs

/-- Translation of one message: the all-UserAction fast path flattens the
children, the mixed-content path dispatches per block (source lines 233
to 372). -/
def formatMessage (m : Message) : List WireItem :=
  if BlockList.all isUserActionContentBlock m.content then
    formatUserActionBlocks (flattenUserActions m.content)
  else
    formatBlocks m.role m.content

/-- Outbound translator formatMessagesForOpenAI (source lines 228 to
375). -/
def formatMessagesForOpenAI : List Message → List WireItem
  | [] => []
  | m :: ms => formatMessage m ++ formatMessagesForOpenAI ms

/-- Content entry of an inbound message item: output text or refusal. -/
inductive OutputContent where
  | text (text : String) : OutputContent
  | refusal (refusal : String) : OutputContent

/-- The four call-like tags the inbound translator treats as reasoning
items (source lines 416 to 419). -/
inductive CallLikeTag where
  | file_search_call : CallLikeTag
  | web_search_call : CallLikeTag
  | computer_call : CallLikeTag
  | reasoning : CallLikeTag

/-- The known-but-unsupported call tags (source lines 429 to 434). -/
inductive UnsupportedTag where
  | image_generation_call : UnsupportedTag
  | code_interpreter_call : UnsupportedTag
  | local_shell_call : UnsupportedTag
  | mcp_call : UnsupportedTag
  | mcp_list_tools : UnsupportedTag
  | mcp_approval_request : UnsupportedTag

def unsupportedTagString : UnsupportedTag → String
  | .image_generation_call => "image_generation_call"
  | .code_interpreter_call => "code_interpreter_call"
  | .local_shell_call => "local_shell_call"
  | .mcp_call => "mcp_call"
  | .mcp_list_tools => "mcp_list_tools"
  | .mcp_approval_request => "mcp_approval_request"

/-- Inbound wire item (response output item); unsupported and unknown
items are carried together with their runtime JSON value. -/
inductive OutputItem where
  | message (content : List OutputContent) : OutputItem
  | functionCall (call_id : String) (name : String) (arguments : String) : OutputItem
  | callLike (tag : CallLikeTag) (id : String) (encrypted_content : Option String) : OutputItem
  | unsupported (tag : UnsupportedTag) (json : Json) : OutputItem
  | unknown (json : Json) : OutputItem

def outputContentBlock : OutputContent → ContentBlock
  | .text t => .text t
  | .refusal r => .text ("Refusal: " ++ r)

/-- Translation of one inbound wire item (the loop body of
formatOpenAIResponse, source lines 382 to 454): produced blocks together
with the warnings logged, or the propagated JSON.parse error. The
call-like case mirrors the JavaScript truthiness test on
encrypted_content, under which an absent or empty payload produces
nothing. -/
def processOutputItem : OutputItem → Except String (List ContentBlock × List String)
  | .message content => .ok (content.map outputContentBlock, [])
  | .functionCall call_id name arguments =>
    match Json.parse arguments with
    | some input => .ok ([.toolUse call_id name input], [])
    | none => .error ("Unexpected token in JSON: " ++ arguments)
  | .callLike _ id encrypted_content =>
    match encrypted_content with
    | some c => if c = "" then .ok ([], []) else .ok ([.thinking c id], [])
    | none => .ok ([], [])
  | .unsupported tag json =>
    .ok ([.text (Json.stringify json)],
      ["Unsupported response output item type: " ++ unsupportedTagString tag])
  | .unknown json =>
    .ok ([.text (Json.stringify json)],
      ["Unknown response output item type: " ++ Json.stringify json])

/-- Inbound translator formatOpenAIResponse (source lines 377 to 458). -/
def formatOpenAIResponse : List OutputItem → Except String (List ContentBlock × List String)
  | [] => .ok ([], [])
  | item :: rest =>
    match processOutputItem item with
    | .error e => .error e
    | .ok (bs, ws) =>
      match formatOpenAIResponse rest with
      | .error e => .error e
      | .ok (bs2, ws2) => .ok (bs ++ bs2, ws ++ ws2)

/-- True when the input does not begin with a decimal digit, so that a
number literal placed before it cannot absorb characters from it. -/
def noDigB : List Char → Bool
  | [] => true
  | c :: _ => !c.isDigit

/-- A character that cannot be a closing delimiter or separator. -/
def notDelim (c : Char) : Prop := c ≠ ']' ∧ c ≠ '}' ∧ c ≠ ',' ∧ c ≠ ':'

instance (c : Char) : Decidable (notDelim c) := by
  unfold notDelim
  infer_instance

/-! Round-trip: the parser inverts the serializer. -/

theorem digitChar_isDigit : ∀ d, d < 10 → (digitChar d).isDigit = true := by decide

theorem digitChar_sub : ∀ d, d < 10 → (digitChar d).toNat - 48 = d := by decide

theorem hexVal_hexDig : ∀ n, n < 16 → hexVal (hexDig n) = some n := by decide

theorem parseNatAux_append (bs : List Char) :
    ∀ (rest : List Char) (acc : Nat), (∀ c ∈ bs, c.isDigit = true) → noDigB rest = true →
      parseNatAux (bs ++ rest) acc =
        (bs.foldl (fun a c => 10 * a + (c.toNat - 48)) acc, rest) := by
  induction bs with
  | nil =>
    intro rest acc _ hr
    cases rest with
    | nil => simp [parseNatAux]
    | cons c r =>
      simp only [noDigB, Bool.not_eq_true'] at hr
      simp [parseNatAux, hr]
  | cons c bs ih =>
    intro rest acc hd hr
    have hc : c.isDigit = true := hd c (by simp)
    simp only [List.cons_append, parseNatAux, hc, if_true, List.foldl_cons]
    exact ih rest _ (fun x hx => hd x (by simp [hx])) hr

theorem digitsLE_lt : ∀ fuel n d, d ∈ digitsLE fuel n → d < 10 := by
  intro fuel
  induction fuel with
  | zero => intro n d hd; simp [digitsLE] at hd
  | succ f ih =>
    intro n d hd
    by_cases h : n = 0
    · simp [digitsLE, h] at hd
    · simp only [digitsLE, h, if_false] at hd
      rcases List.mem_cons.mp hd with h1 | h1
      · subst h1; exact Nat.mod_lt _ (by omega)
      · exact ih _ _ h1

theorem digitsLE_foldr : ∀ fuel n, n < fuel →
    (digitsLE fuel n).foldr (fun d a => 10 * a + d) 0 = n := by
  intro fuel
  induction fuel with
  | zero => intro n h; omega
  | succ f ih =>
    intro n h
    by_cases h0 : n = 0
    · simp [digitsLE, h0]
    · have hdiv : n / 10 < f := by omega
      simp only [digitsLE, h0, if_false, List.foldr_cons, ih _ hdiv]
      omega

theorem natChars_ne_nil (n : Nat) : natChars n ≠ [] := by
  by_cases h : n = 0
  · simp [natChars, h]
  · have : digitsLE (n + 1) n = n % 10 :: digitsLE n (n / 10) := by
      simp [digitsLE, h]
    simp [natChars, h, this]

theorem natChars_digits (n : Nat) : ∀ c ∈ natChars n, c.isDigit = true := by
  intro c hc
  by_cases h : n = 0
  · simp [natChars, h] at hc
    subst hc; decide
  · simp only [natChars, h, if_false, List.mem_reverse, List.mem_map] at hc
    obtain ⟨d, hd, hdc⟩ := hc
    subst hdc
    exact digitChar_isDigit d (digitsLE_lt _ _ _ hd)

theorem natChars_foldl (n : Nat) :
    (natChars n).foldl (fun a c => 10 * a + (c.toNat - 48)) 0 = n := by
  by_cases h : n = 0
  · subst h; decide
  · have congrFold : ∀ l : List Nat, (∀ d ∈ l, d < 10) →
        l.foldr (fun d a => 10 * a + ((digitChar d).toNat - 48)) 0 =
        l.foldr (fun d a => 10 * a + d) 0 := by
      intro l
      induction l with
      | nil => intro _; rfl
      | cons d l ihl =>
        intro hl
        simp only [List.foldr_cons, ihl (fun x hx => hl x (by simp [hx])),
          digitChar_sub d (hl d (by simp))]
    simp only [natChars, h, if_false, List.foldl_reverse, List.foldr_map]
    rw [congrFold _ (fun d hd => digitsLE_lt _ _ _ hd)]
    exact digitsLE_foldr (n + 1) n (by omega)

theorem parseNat_natChars (n : Nat) (rest : List Char) (hr : noDigB rest = true) :
    parseNat (natChars n ++ rest) = some (n, rest) := by
  obtain ⟨c, cs, hcs⟩ : ∃ c cs, natChars n = c :: cs := by
    cases hx : natChars n with
    | nil => exact absurd hx (natChars_ne_nil n)
    | cons c cs => exact ⟨c, cs, rfl⟩
  have hdig : ∀ x ∈ natChars n, x.isDigit = true := natChars_digits n
  have hc : c.isDigit = true := hdig c (by rw [hcs]; simp)
  have haux := parseNatAux_append (natChars n) rest 0 hdig hr
  rw [natChars_foldl] at haux
  rw [hcs] at haux ⊢
  simp only [List.cons_append, parseNat, hc, if_true]
  simpa using haux

theorem parseStrAux_escape : ∀ (cs rest : List Char),
    parseStrAux (escapeChars cs ++ '"' :: rest) = some (cs, rest) := by
  intro cs
  induction cs with
  | nil => intro rest; simp [escapeChars, parseStrAux]
  | cons c cs ih =>
    intro rest
    simp only [escapeChars, List.append_assoc]
    by_cases h1 : c = '"'
    · subst h1; simp [escapeChar, parseStrAux, unesc, ih]
    · by_cases h2 : c = '\\'
      · subst h2; simp [escapeChar, parseStrAux, unesc, ih]
      · by_cases h3 : c = '\n'
        · subst h3; simp [escapeChar, parseStrAux, unesc, ih]
        · by_cases h4 : c = '\r'
          · subst h4; simp [escapeChar, parseStrAux, unesc, ih]
          · by_cases h5 : c = '\t'
            · subst h5; simp [escapeChar, parseStrAux, unesc, ih]
            · by_cases h6 : c.toNat = 8
              · have hc : c = Char.ofNat 8 := by
                  rw [← h6, Char.ofNat_toNat]
                subst hc
                simp [escapeChar, parseStrAux, unesc, ih]
              · by_cases h7 : c.toNat = 12
                · have hc : c = Char.ofNat 12 := by
                    rw [← h7, Char.ofNat_toNat]
                  subst hc
                  simp [escapeChar, parseStrAux, unesc, ih]
                · by_cases h8 : c.toNat < 32
                  · simp only [escapeChar, h1, h2, h3, h4, h5, h6, h7, h8, if_false, if_true,
                      List.cons_append, List.nil_append]
                    have hv0 : hexVal '0' = some 0 := by decide
                    have hva : hexVal (hexDig (c.toNat / 16)) = some (c.toNat / 16) :=
                      hexVal_hexDig _ (by omega)
                    have hvb : hexVal (hexDig (c.toNat % 16)) = some (c.toNat % 16) :=
                      hexVal_hexDig _ (by omega)
                    have harith : 4096 * 0 + 256 * 0 + 16 * (c.toNat / 16) + c.toNat % 16 = c.toNat := by
                      omega
                    simp only [parseStrAux, hv0, hva, hvb, ih, List.cons_append,
                      List.nil_append]
                    have h16 : 4096 * 0 + 256 * 0 + 16 * (c.toNat / 16) + c.toNat % 16 = c.toNat := by
                      omega
                    rw [h16, Char.ofNat_toNat]
                  · simp only [escapeChar, h1, h2, h3, h4, h5, h6, h7, h8, if_false,
                      List.cons_append, List.nil_append]
                    rw [parseStrAux.eq_def]
                    split
                    any_goals simp_all
                    rename_i x heq
                    obtain ⟨hc2, hr2⟩ := heq
                    subst hc2
                    rw [← hr2, ih]

theorem isDigit_ne (c : Char) (hc : c.isDigit = true) :
    c ≠ 'n' ∧ c ≠ 't' ∧ c ≠ 'f' ∧ c ≠ '"' ∧ c ≠ '[' ∧ c ≠ '{' ∧ c ≠ '-' ∧ c ≠ ']' ∧ c ≠ '}' ∧
      c ≠ ',' ∧ c ≠ ':' := by
  refine ⟨?_, ?_, ?_, ?_, ?_, ?_, ?_, ?_, ?_, ?_, ?_⟩ <;>
    · intro h; subst h; simp [Char.isDigit] at hc

/-- Every serialized JSON value starts with a character that is not a
closing bracket, closing brace, comma or colon. -/
theorem jChars_head (j : Json) :
    ∃ c cs, jChars j = c :: cs ∧ notDelim c := by
  cases j with
  | null => exact ⟨ 'n', _, rfl, by decide⟩
  | bool b =>
    cases b with
    | true => exact ⟨ 't', _, rfl, by decide⟩
    | false => exact ⟨ 'f', _, rfl, by decide⟩
  | num n =>
    by_cases hn : n < 0
    · exact ⟨ '-', natChars n.natAbs, by simp [jChars, intChars, hn], by decide⟩
    · obtain ⟨c, cs, hcs⟩ : ∃ c cs, natChars n.natAbs = c :: cs := by
        cases hx : natChars n.natAbs with
        | nil => exact absurd hx (natChars_ne_nil _)
        | cons c cs => exact ⟨c, cs, rfl⟩
      have hc : c.isDigit = true := natChars_digits _ c (by rw [hcs]; simp)
      have hne := isDigit_ne c hc
      exact ⟨c, cs, by simp [jChars, intChars, hn, hcs], hne.2.2.2.2.2.2.2.1,
        hne.2.2.2.2.2.2.2.2.1, hne.2.2.2.2.2.2.2.2.2.1, hne.2.2.2.2.2.2.2.2.2.2⟩
  | str s => exact ⟨ '"', _, rfl, by decide⟩
  | arr xs =>
    cases xs with
    | nil => exact ⟨ '[', _, rfl, by decide⟩
    | cons h t => exact ⟨ '[', _, rfl, by decide⟩
  | obj kvs =>
    cases kvs with
    | nil => exact ⟨ '{', _, rfl, by decide⟩
    | cons k v t => exact ⟨ '{', _, rfl, by decide⟩

theorem noDig_listChars (t : JsonList) (rest : List Char) :
    noDigB (listChars t ++ ']' :: rest) = true := by
  cases t <;> simp [listChars, noDigB]

theorem noDig_membersChars (t : JsonMembers) (rest : List Char) :
    noDigB (membersChars t ++ '}' :: rest) = true := by
  cases t <;> simp [membersChars, noDigB]

theorem sizeJ_pos (j : Json) : 1 ≤ sizeJ j := by
  cases j <;> simp [sizeJ]

/-! Unfold lemmas for the parser, used by the round-trip proof. -/

theorem parseV_quote (fuel : Nat) (r : List Char) :
    parseV (fuel + 1) ('"' :: r) =
      match parseStrAux r with
      | some (s, r2) => some (.str (String.mk s), r2)
      | none => none := rfl

theorem parseV_neg (fuel : Nat) (r : List Char) :
    parseV (fuel + 1) ('-' :: r) =
      match parseNat r with
      | some (n, r2) => some (.num (-(n : Int)), r2)
      | none => none := rfl

theorem parseV_lbrack (fuel : Nat) (r : List Char) :
    parseV (fuel + 1) ('[' :: r) =
      match r with
      | ']' :: r2 => some (.arr .nil, r2)
      | _ =>
        match parseV fuel r with
        | some (h, r2) =>
          match parseElems fuel r2 with
          | some (t, r3) => some (.arr (.cons h t), r3)
          | none => none
        | none => none := rfl

theorem parseV_lbrace_quote (fuel : Nat) (r : List Char) :
    parseV (fuel + 1) ('{' :: '"' :: r) =
      match parseStrAux r with
      | some (k, r3) =>
        match r3 with
        | ':' :: r4 =>
          match parseV fuel r4 with
          | some (v, r5) =>
            match parseMembers fuel r5 with
            | some (t, r6) => some (.obj (.cons (String.mk k) v t), r6)
            | none => none
          | none => none
        | _ => none
      | none => none := rfl

theorem parseV_other (fuel : Nat) (c : Char) (r : List Char)
    (h1 : c ≠ 'n') (h2 : c ≠ 't') (h3 : c ≠ 'f') (h4 : c ≠ '"') (h5 : c ≠ '[')
    (h6 : c ≠ '{') (h7 : c ≠ '-') :
    parseV (fuel + 1) (c :: r) =
      match parseNat (c :: r) with
      | some (n, r2) => some (.num ((n : Int)), r2)
      | none => none := by
  simp only [parseV]
  rw [if_neg h1, if_neg h2, if_neg h3, if_neg h4, if_neg h5, if_neg h6, if_neg h7]

theorem parseElems_rb (fuel : Nat) (r : List Char) :
    parseElems fuel (']' :: r) = some (.nil, r) := by
  cases fuel <;> rfl

theorem parseElems_comma (fuel : Nat) (r : List Char) :
    parseElems (fuel + 1) (',' :: r) =
      match parseV fuel r with
      | some (h, r2) =>
        match parseElems fuel r2 with
        | some (t, r3) => some (.cons h t, r3)
        | none => none
      | none => none := by
  simp [parseElems]

theorem parseMembers_rb (fuel : Nat) (r : List Char) :
    parseMembers fuel ('}' :: r) = some (.nil, r) := by
  rw [parseMembers.eq_def]
  rfl

theorem parseMembers_comma (fuel : Nat) (r : List Char) :
    parseMembers (fuel + 1) (',' :: '"' :: r) =
      match parseStrAux r with
      | some (k, r3) =>
        match r3 with
        | ':' :: r4 =>
          match parseV fuel r4 with
          | some (v, r5) =>
            match parseMembers fuel r5 with
            | some (t, r6) => some (.cons (String.mk k) v t, r6)
            | none => none
          | none => none
        | _ => none
      | none => none := by
  rw [parseMembers.eq_def]
  rfl

theorem parse_round : ∀ fuel : Nat,
    (∀ j rest, sizeJ j ≤ fuel → noDigB rest = true →
      parseV fuel (jChars j ++ rest) = some (j, rest)) ∧
    (∀ t rest, sizeL t ≤ fuel →
      parseElems fuel (listChars t ++ ']' :: rest) = some (t, rest)) ∧
    (∀ t rest, sizeM t ≤ fuel →
      parseMembers fuel (membersChars t ++ '}' :: rest) = some (t, rest)) := by
  intro fuel
  induction fuel with
  | zero =>
    refine ⟨?_, ?_, ?_⟩
    · intro j rest hs _
      exact absurd hs (by have := sizeJ_pos j; omega)
    · intro t rest hs
      cases t with
      | nil => exact parseElems_rb 0 rest
      | cons h t => exact absurd hs (by simp [sizeL])
    · intro t rest hs
      cases t with
      | nil => exact parseMembers_rb 0 rest
      | cons k v t => exact absurd hs (by simp [sizeM])
  | succ fuel ih =>
    obtain ⟨ihJ, ihL, ihM⟩ := ih
    refine ⟨?_, ?_, ?_⟩
    · intro j rest hs hrest
      cases j with
      | null => rfl
      | bool b => cases b <;> rfl
      | str s =>
        have hj : jChars (.str s) ++ rest = '"' :: (escapeChars s.data ++ '"' :: rest) := by
          simp [jChars, strChars]
        rw [hj, parseV_quote, parseStrAux_escape]
      | num n =>
        by_cases hn : n < 0
        · have hj : jChars (.num n) ++ rest = '-' :: (natChars n.natAbs ++ rest) := by
            simp [jChars, intChars, hn]
          rw [hj, parseV_neg, parseNat_natChars _ _ hrest]
          have hval : -((n.natAbs : Nat) : Int) = n := by omega
          simp only [parseV_neg]
          show some (Json.num (-((n.natAbs : Nat) : Int)), rest) = some (Json.num n, rest)
          rw [hval]
        · obtain ⟨c, cs, hcs⟩ : ∃ c cs, natChars n.natAbs = c :: cs := by
            cases hx : natChars n.natAbs with
            | nil => exact absurd hx (natChars_ne_nil _)
            | cons c cs => exact ⟨c, cs, rfl⟩
          have hdig : c.isDigit = true := natChars_digits _ c (by rw [hcs]; simp)
          have hne := isDigit_ne c hdig
          have hj : jChars (.num n) ++ rest = c :: (cs ++ rest) := by
            simp [jChars, intChars, hn, hcs]
          rw [hj, parseV_other fuel c _ hne.1 hne.2.1 hne.2.2.1 hne.2.2.2.1 hne.2.2.2.2.1
            hne.2.2.2.2.2.1 hne.2.2.2.2.2.2.1]
          rw [show c :: (cs ++ rest) = natChars n.natAbs ++ rest by rw [hcs]; simp]
          rw [parseNat_natChars _ _ hrest]
          have hval : ((n.natAbs : Nat) : Int) = n := by omega
          simp [hval]
      | arr xs =>
        cases xs with
        | nil => rfl
        | cons h t =>
          obtain ⟨c, cs, hcs, hc1, _, _, _⟩ := jChars_head h
          have hsz1 : sizeJ h ≤ fuel := by simp [sizeJ, sizeL] at hs; omega
          have hsz2 : sizeL t ≤ fuel := by simp [sizeJ, sizeL] at hs; omega
          have hj : jChars (.arr (.cons h t)) ++ rest =
              '[' :: (jChars h ++ (listChars t ++ ']' :: rest)) := by
            simp [jChars]
          rw [hj, parseV_lbrack]
          rw [hcs, List.cons_append]
          split
          · rename_i r2 heq
            exact absurd (List.cons.injEq .. ▸ heq) (by simp [hc1])
          · rw [← List.cons_append, ← hcs]
            simp only [ihJ h _ hsz1 (noDig_listChars t rest), ihL t rest hsz2]
      | obj kvs =>
        cases kvs with
        | nil => rfl
        | cons k v t =>
          have hsz1 : sizeJ v ≤ fuel := by simp [sizeJ, sizeM] at hs; omega
          have hsz2 : sizeM t ≤ fuel := by simp [sizeJ, sizeM] at hs; omega
          have hj : jChars (.obj (.cons k v t)) ++ rest =
              '{' :: '"' :: (escapeChars k.data ++ '"' ::
                (':' :: (jChars v ++ (membersChars t ++ '}' :: rest)))) := by
            simp [jChars, strChars]
          rw [hj, parseV_lbrace_quote, parseStrAux_escape]
          simp only [ihJ v _ hsz1 (noDig_membersChars t rest), ihM t rest hsz2]
    · intro t rest hs
      cases t with
      | nil => exact parseElems_rb _ rest
      | cons h t =>
        have hsz1 : sizeJ h ≤ fuel := by simp [sizeL] at hs; omega
        have hsz2 : sizeL t ≤ fuel := by simp [sizeL] at hs; omega
        have hj : listChars (.cons h t) ++ ']' :: rest =
            ',' :: (jChars h ++ (listChars t ++ ']' :: rest)) := by
          simp [listChars]
        rw [hj, parseElems_comma]
        simp only [ihJ h _ hsz1 (noDig_listChars t rest), ihL t rest hsz2]
    · intro t rest hs
      cases t with
      | nil => exact parseMembers_rb _ rest
      | cons k v t =>
        have hsz1 : sizeJ v ≤ fuel := by simp [sizeM] at hs; omega
        have hsz2 : sizeM t ≤ fuel := by simp [sizeM] at hs; omega
        have hj : membersChars (.cons k v t) ++ '}' :: rest =
            ',' :: '"' :: (escapeChars k.data ++ '"' ::
              (':' :: (jChars v ++ (membersChars t ++ '}' :: rest)))) := by
          simp [membersChars, strChars]
        rw [hj, parseMembers_comma, parseStrAux_escape]
        simp only [ihJ v _ hsz1 (noDig_membersChars t rest), ihM t rest hsz2]

mutual

theorem sizeJ_le_len : ∀ j : Json, sizeJ j ≤ (jChars j).length
  | .null => by simp [sizeJ, jChars]
  | .bool b => by cases b <;> simp [sizeJ, jChars]
  | .num n => by
    have h := natChars_ne_nil n.natAbs
    have hlen : 1 ≤ (natChars n.natAbs).length := by
      cases hx : natChars n.natAbs with
      | nil => exact absurd hx h
      | cons c cs => simp
    by_cases hn : n < 0 <;> (simp [sizeJ, jChars, intChars, hn]; try omega)
  | .str s => by simp [sizeJ, jChars, strChars]
  | .arr .nil => by simp [sizeJ, sizeL, jChars]
  | .arr (.cons h t) => by
    have h1 := sizeJ_le_len h
    have h2 := sizeL_le_len t
    simp [sizeJ, sizeL, jChars, listChars] at *
    omega
  | .obj .nil => by simp [sizeJ, sizeM, jChars]
  | .obj (.cons k v t) => by
    have h1 := sizeJ_le_len v
    have h2 := sizeM_le_len t
    simp [sizeJ, sizeM, jChars, membersChars] at *
    omega

theorem sizeL_le_len : ∀ t : JsonList, sizeL t ≤ (listChars t).length
  | .nil => by simp [sizeL, listChars]
  | .cons h t => by
    have h1 := sizeJ_le_len h
    have h2 := sizeL_le_len t
    simp [sizeL, listChars] at *
    omega

theorem sizeM_le_len : ∀ t : JsonMembers, sizeM t ≤ (membersChars t).length
  | .nil => by simp [sizeM, membersChars]
  | .cons k v t => by
    have h1 := sizeJ_le_len v
    have h2 := sizeM_le_len t
    simp [sizeM, membersChars] at *
    omega

end

/-- JSON.parse inverts JSON.stringify: the translator can always recover
the exact value it serialized. -/
theorem Json.parse_stringify (j : Json) : Json.parse (Json.stringify j) = some j := by
  unfold Json.parse Json.stringify
  have hdata : (String.mk (jChars j)).data = jChars j := rfl
  rw [hdata]
  have hsz : sizeJ j ≤ (jChars j).length + 1 := by
    have := sizeJ_le_len j
    omega
  have h := (parse_round ((jChars j).length + 1)).1 j [] hsz rfl
  rw [List.append_nil] at h
  rw [h]

/-! Helper lemmas about the shape of fast-path output. -/

theorem formatUserActionChild_shape (b : ContentBlock) :
    ∀ item ∈ formatUserActionChild b, ∃ r c, item = WireItem.message r c := by
  cases b with
  | toolUse id name input =>
    intro item h
    simp [formatUserActionChild, isComputerToolUseContentBlock] at h
    exact ⟨_, _, h⟩
  | image src =>
    intro item h
    simp [formatUserActionChild, isComputerToolUseContentBlock, isImageContentBlock] at h
    exact ⟨_, _, h⟩
  | text t => intro item h; simp [formatUserActionChild, isComputerToolUseContentBlock,
      isImageContentBlock] at h
  | toolResult tuid cs => intro item h; simp [formatUserActionChild,
      isComputerToolUseContentBlock, isImageContentBlock] at h
  | thinking th sig => intro item h; simp [formatUserActionChild,
      isComputerToolUseContentBlock, isImageContentBlock] at h
  | userAction cs => intro item h; simp [formatUserActionChild,
      isComputerToolUseContentBlock, isImageContentBlock] at h
  | other j => intro item h; simp [formatUserActionChild,
      isComputerToolUseContentBlock, isImageContentBlock] at h

theorem formatUserActionBlocks_shape :
    ∀ bl : BlockList, ∀ item ∈ formatUserActionBlocks bl, ∃ r c, item = WireItem.message r c
  | .nil => by intro item h; simp [formatUserActionBlocks] at h
  | .cons b bs => by
    intro item h
    simp only [formatUserActionBlocks, List.mem_append] at h
    rcases h with h | h
    · exact formatUserActionChild_shape b item h
    · exact formatUserActionBlocks_shape bs item h

/-!
Claim theorems. Each theorem states one claim of the specification over
the embedded translator.
-/

/-- C1: outbound translation of a ToolResult block expands entrywise, in
order, also when the block is translated as part of a whole message; an
inner Image entry yields exactly a function-call-output item with output
"screenshot" followed by one user message with a single input_image entry
carrying the data URL, and an inner Text entry yields exactly one
function-call-output item carrying the text. -/
theorem C1_toolResult_outbound (role : Role) (tuid : String) (cs : BlockList) :
    formatBlock role (.toolResult tuid cs) = formatToolResultBlocks tuid cs
    ∧ formatMessagesForOpenAI [⟨role, .cons (.toolResult tuid cs) .nil⟩] =
        formatToolResultBlocks tuid cs
    ∧ (∀ b bs, formatToolResultBlocks tuid (.cons b bs) =
        formatToolResultContent tuid b ++ formatToolResultBlocks tuid bs)
    ∧ (∀ src : ImageSource, formatToolResultContent tuid (.image src) =
        [.functionCallOutput tuid "screenshot",
         .message "user" [.inputImage "high"
           ("data:" ++ src.media_type ++ ";base64," ++ src.data)]])
    ∧ (∀ t : String, formatToolResultContent tuid (.text t) =
        [.functionCallOutput tuid t]) := by
  refine ⟨rfl, ?_, fun b bs => rfl, fun src => rfl, fun t => rfl⟩
  simp [formatMessagesForOpenAI, formatMessage, BlockList.all, isUserActionContentBlock,
    formatBlocks, formatBlock]

/-- C2: on the mixed-content path a ToolUse block on an ASSISTANT message
becomes exactly one function_call item whose arguments field is the JSON
serialization of the input, which parses back to the input; a ToolUse
block on a USER message produces nothing. -/
theorem C2_toolUse_outbound (id name : String) (input : Json) :
    formatBlock .ASSISTANT (.toolUse id name input) =
        [.functionCall id name (Json.stringify input)]
    ∧ Json.parse (Json.stringify input) = some input
    ∧ formatBlock .USER (.toolUse id name input) = []
    ∧ (∀ m : Message, BlockList.all isUserActionContentBlock m.content = false →
        formatMessage m = formatBlocks m.role m.content) := by
  refine ⟨rfl, Json.parse_stringify input, rfl, fun m hm => ?_⟩
  simp [formatMessage, hm]

theorem C2_toolUse_outbound_witness :
    formatMessage ⟨.ASSISTANT, .cons (.toolUse "call_1" "click"
        (.obj (.cons "x" (.num 1) (.cons "y" (.num 2) .nil)))) .nil⟩ =
      formatBlocks .ASSISTANT (.cons (.toolUse "call_1" "click"
        (.obj (.cons "x" (.num 1) (.cons "y" (.num 2) .nil)))) .nil)
    ∧ Json.parse (Json.stringify (.obj (.cons "x" (.num 1) (.cons "y" (.num 2) .nil)))) =
        some (.obj (.cons "x" (.num 1) (.cons "y" (.num 2) .nil))) :=
  ⟨(C2_toolUse_outbound "call_1" "click"
      (.obj (.cons "x" (.num 1) (.cons "y" (.num 2) .nil)))).2.2.2 _ (by rfl),
   (C2_toolUse_outbound "call_1" "click"
      (.obj (.cons "x" (.num 1) (.cons "y" (.num 2) .nil)))).2.1⟩

/-- C3: when every top-level block of a message is a UserAction, the
children are flattened in order and translated childwise: a ToolUse child
becomes one user message narrating the action with the indented JSON of
its input, an Image child becomes one user message with a single
input_image entry, every other child type produces nothing; no
function_call item is ever produced on this path. -/
theorem C3_userAction_fast_path (m : Message)
    (h : BlockList.all isUserActionContentBlock m.content = true) :
    formatMessage m = formatUserActionBlocks (flattenUserActions m.content)
    ∧ (∀ id name input, formatUserActionChild (.toolUse id name input) =
        [.message "user" [.inputText ("User performed action: " ++ name ++ "\n"
          ++ Json.stringifyPretty input)]])
    ∧ (∀ src : ImageSource, formatUserActionChild (.image src) =
        [.message "user" [.inputImage "high"
          ("data:" ++ src.media_type ++ ";base64," ++ src.data)]])
    ∧ (∀ t, formatUserActionChild (.text t) = [])
    ∧ (∀ th sig, formatUserActionChild (.thinking th sig) = [])
    ∧ (∀ tuid cs, formatUserActionChild (.toolResult tuid cs) = [])
    ∧ (∀ cs, formatUserActionChild (.userAction cs) = [])
    ∧ (∀ j, formatUserActionChild (.other j) = [])
    ∧ (∀ item ∈ formatMessage m, ∀ cid nm args, item ≠ .functionCall cid nm args) := by
  have h1 : formatMessage m = formatUserActionBlocks (flattenUserActions m.content) := by
    simp [formatMessage, h]
  refine ⟨h1, fun id name input => rfl, fun src => rfl, fun t => rfl, fun th sig => rfl,
    fun tuid cs => rfl, fun cs => rfl, fun j => rfl, ?_⟩
  intro item hmem cid nm args
  rw [h1] at hmem
  obtain ⟨r, c, hrc⟩ := formatUserActionBlocks_shape _ item hmem
  subst hrc
  intro hcontra
  exact WireItem.noConfusion hcontra

theorem C3_userAction_fast_path_witness :
    formatMessage ⟨.USER, .cons (.userAction (.cons (.toolUse "id1" "click"
        (.obj (.cons "x" (.num 1) .nil))) (.cons (.image ⟨"image/png", "AAA="⟩) .nil))) .nil⟩ =
      formatUserActionBlocks (flattenUserActions (.cons (.userAction (.cons (.toolUse "id1"
        "click" (.obj (.cons "x" (.num 1) .nil))) (.cons (.image ⟨"image/png", "AAA="⟩)
        .nil))) .nil)) :=
  (C3_userAction_fast_path ⟨.USER, .cons (.userAction (.cons (.toolUse "id1" "click"
      (.obj (.cons "x" (.num 1) .nil))) (.cons (.image ⟨"image/png", "AAA="⟩) .nil))) .nil⟩
    (by rfl)).1

/-- C4 as frozen is violated by the code at the arguments string "null":
that string is valid JSON whose parse is JSON null, so inbound translation
produces a ToolUse block whose input is null, although the claim states
that a ToolUse block with null input is never produced. -/
theorem C4_counterexample :
    Json.parse "null" = some .null
    ∧ processOutputItem (.functionCall "call_1" "screenshot" "null") =
        .ok ([.toolUse "call_1" "screenshot" .null], []) :=
  ⟨rfl, rfl⟩

/-- C4 amended: a function_call item with parseable arguments becomes
exactly one ToolUse block carrying the parsed input (the parse result,
which is JSON null exactly when the arguments string denotes null); a
function_call item with unparseable arguments makes the translation of the
whole sequence fail with a propagated error, and no ToolUse block is ever
produced from unparseable arguments. -/
theorem C4_functionCall_inbound (call_id name arguments : String) :
    (∀ j, Json.parse arguments = some j →
      processOutputItem (.functionCall call_id name arguments) =
        .ok ([.toolUse call_id name j], []))
    ∧ (Json.parse arguments = none →
        ∃ e, processOutputItem (.functionCall call_id name arguments) = .error e
          ∧ ∀ rest, formatOpenAIResponse (.functionCall call_id name arguments :: rest) =
              .error e) := by
  constructor
  · intro j hj
    simp [processOutputItem, hj]
  · intro h
    refine ⟨"Unexpected token in JSON: " ++ arguments, ?_, ?_⟩
    · simp [processOutputItem, h]
    · intro rest
      simp [formatOpenAIResponse, processOutputItem, h]

theorem C4_functionCall_inbound_witness :
    processOutputItem (.functionCall "call_1" "click" "[1,2]") =
        .ok ([.toolUse "call_1" "click" (.arr (.cons (.num 1) (.cons (.num 2) .nil)))], [])
    ∧ ∃ e, processOutputItem (.functionCall "call_1" "click" "not json") = .error e
        ∧ ∀ rest, formatOpenAIResponse (.functionCall "call_1" "click" "not json" :: rest) =
            .error e :=
  ⟨(C4_functionCall_inbound "call_1" "click" "[1,2]").1 _ (by rfl),
   (C4_functionCall_inbound "call_1" "click" "not json").2 (by rfl)⟩

/-- C5: a Text block becomes one message item using the input slot for
USER messages and the output slot otherwise, carrying the text unchanged;
the inbound translation of a message item carrying that text returns a
Text block with exactly the original text. -/
theorem C5_text_round_trip (t : String) :
    formatMessagesForOpenAI [⟨.USER, .cons (.text t) .nil⟩] =
        [.message "user" [.inputText t]]
    ∧ formatMessagesForOpenAI [⟨.ASSISTANT, .cons (.text t) .nil⟩] =
        [.message "assistant" [.outputText t]]
    ∧ formatBlock .USER (.text t) = [.message "user" [.inputText t]]
    ∧ formatBlock .ASSISTANT (.text t) = [.message "assistant" [.outputText t]]
    ∧ processOutputItem (.message [.text t]) = .ok ([.text t], [])
    ∧ formatOpenAIResponse [.message [.text t]] = .ok ([.text t], []) :=
  ⟨rfl, rfl, rfl, rfl, rfl, rfl⟩

/-- C6 as frozen is violated by the code when encrypted_content is present
but empty: the code tests JavaScript truthiness, so an inbound reasoning
item whose encrypted_content is the empty string produces no Thinking
block, although the claim states a present encrypted_content always
produces one. -/
theorem C6_counterexample :
    processOutputItem (.callLike .reasoning "sig1" (some "")) = .ok ([], []) := rfl

/-- C6 amended: a Thinking block becomes exactly one reasoning item with
id the signature, encrypted_content the thinking payload and empty
summary, for either role; inbound, any of the call-like tags with a
present and non-empty encrypted_content yields exactly one Thinking block
with both fields preserved, while an absent or empty encrypted_content
yields nothing. -/
theorem C6_thinking_round_trip (th sig : String) (role : Role) :
    formatBlock role (.thinking th sig) = [.reasoning sig th []]
    ∧ (∀ tag, th ≠ "" → processOutputItem (.callLike tag sig (some th)) =
        .ok ([.thinking th sig], []))
    ∧ (∀ tag id, processOutputItem (.callLike tag id none) = .ok ([], []))
    ∧ (∀ tag id, processOutputItem (.callLike tag id (some "")) = .ok ([], [])) := by
  refine ⟨?_, fun tag hth => ?_, fun tag id => rfl, fun tag id => rfl⟩
  · cases role <;> rfl
  · simp [processOutputItem, hth]

theorem C6_thinking_round_trip_witness :
    processOutputItem (.callLike .reasoning "sig1" (some "enc1")) =
      .ok ([.thinking "enc1" "sig1"], []) :=
  (C6_thinking_round_trip "enc1" "sig1" .USER).2.1 .reasoning (by decide)

/-- C7 as frozen is violated by the code: an inbound reasoning item
without encrypted_content produces zero blocks and no logged warning, so
not every zero-block item is accompanied by a warning. -/
theorem C7_counterexample :
    processOutputItem (.callLike .reasoning "r1" none) = .ok ([], []) := rfl

/-- C7 amended: every non-message item produces exactly zero or one
content block and a message item may produce several; an item producing
zero blocks is a message with no content entries or a call-like item with
absent or empty encrypted content and is skipped without a warning, while
unsupported-but-known and unknown items always produce a fallback block
accompanied by a warning. -/
theorem C7_inbound_granularity (item : OutputItem) :
    ∀ bs ws, processOutputItem item = .ok (bs, ws) →
      ((∀ c, item ≠ .message c) → bs.length ≤ 1)
      ∧ (bs = [] → ws = []
          ∧ (item = .message []
             ∨ ∃ tag id, item = .callLike tag id none ∨ item = .callLike tag id (some "")))
      ∧ ((∃ tag j, item = .unsupported tag j) ∨ (∃ j, item = .unknown j) → ws ≠ []) := by
  intro bs ws h
  cases item with
  | message c =>
    simp only [processOutputItem, Except.ok.injEq, Prod.mk.injEq] at h
    obtain ⟨hbs, hws⟩ := h
    refine ⟨fun habs => absurd rfl (habs c), fun hbs0 => ?_, fun habs => ?_⟩
    · subst hbs hws
      refine ⟨rfl, .inl ?_⟩
      cases c with
      | nil => rfl
      | cons x xs => simp at hbs0
    · rcases habs with ⟨tag, j, hj⟩ | ⟨j, hj⟩ <;> exact OutputItem.noConfusion hj
  | functionCall cid nm args =>
    cases hp : Json.parse args with
    | none => simp [processOutputItem, hp] at h
    | some j =>
      simp only [processOutputItem, hp, Except.ok.injEq, Prod.mk.injEq] at h
      obtain ⟨hbs, hws⟩ := h
      subst hbs hws
      refine ⟨fun _ => by simp, fun hbs0 => by simp at hbs0, fun habs => ?_⟩
      rcases habs with ⟨tag, j2, hj⟩ | ⟨j2, hj⟩ <;> exact OutputItem.noConfusion hj
  | callLike tag id ec =>
    cases ec with
    | none =>
      simp only [processOutputItem, Except.ok.injEq, Prod.mk.injEq] at h
      obtain ⟨hbs, hws⟩ := h
      subst hbs hws
      refine ⟨fun _ => by simp, fun _ => ⟨rfl, .inr ⟨tag, id, .inl rfl⟩⟩, fun habs => ?_⟩
      rcases habs with ⟨tag2, j2, hj⟩ | ⟨j2, hj⟩ <;> exact OutputItem.noConfusion hj
    | some c =>
      by_cases hc : c = ""
      · subst hc
        rw [show processOutputItem (.callLike tag id (some "")) =
            (Except.ok (([] : List ContentBlock), ([] : List String)) :
              Except String (List ContentBlock × List String)) from rfl] at h
        injection h with hpair
        injection hpair with hbs hws
        subst hbs hws
        refine ⟨fun _ => by simp, fun _ => ⟨rfl, .inr ⟨tag, id, .inr rfl⟩⟩, fun habs => ?_⟩
        rcases habs with ⟨tag2, j2, hj⟩ | ⟨j2, hj⟩ <;> exact OutputItem.noConfusion hj
      · have hred : processOutputItem (.callLike tag id (some c)) =
            .ok ([.thinking c id], []) := by
          simp [processOutputItem, hc]
        rw [hred] at h
        injection h with hpair
        injection hpair with hbs hws
        subst hbs hws
        refine ⟨fun _ => by simp, fun hbs0 => by simp at hbs0, fun habs => ?_⟩
        rcases habs with ⟨tag2, j2, hj⟩ | ⟨j2, hj⟩ <;> exact OutputItem.noConfusion hj
  | unsupported tag j =>
    simp only [processOutputItem, Except.ok.injEq, Prod.mk.injEq] at h
    obtain ⟨hbs, hws⟩ := h
    subst hbs hws
    exact ⟨fun _ => by simp, fun hbs0 => by simp at hbs0, fun _ => by simp⟩
  | unknown j =>
    simp only [processOutputItem, Except.ok.injEq, Prod.mk.injEq] at h
    obtain ⟨hbs, hws⟩ := h
    subst hbs hws
    exact ⟨fun _ => by simp, fun hbs0 => by simp at hbs0, fun _ => by simp⟩

theorem C7_inbound_granularity_witness :
    ["Unknown response output item type: null"] ≠ ([] : List String) :=
  (C7_inbound_granularity (.unknown .null) [.text "null"]
    ["Unknown response output item type: null"] (by rfl)).2.2 (.inr ⟨.null, rfl⟩)

/-- C8: an unrecognized content block on the outbound path degrades to
exactly one user message whose input_text is the JSON serialization of the
block, which parses back to the block; an unknown or unsupported-but-known
inbound item degrades to exactly one Text block with the JSON
serialization of the item and a warning, raising no error, and translation
of the surrounding sequence continues. -/
theorem C8_json_fallbacks (j : Json) (role : Role) :
    formatBlock role (.other j) = [.message "user" [.inputText (Json.stringify j)]]
    ∧ Json.parse (Json.stringify j) = some j
    ∧ processOutputItem (.unknown j) =
        .ok ([.text (Json.stringify j)],
          ["Unknown response output item type: " ++ Json.stringify j])
    ∧ (∀ tag, processOutputItem (.unsupported tag j) =
        .ok ([.text (Json.stringify j)],
          ["Unsupported response output item type: " ++ unsupportedTagString tag]))
    ∧ (∀ rest bs ws, formatOpenAIResponse rest = .ok (bs, ws) →
        formatOpenAIResponse (.unknown j :: rest) =
          .ok (.text (Json.stringify j) :: bs,
            ("Unknown response output item type: " ++ Json.stringify j) :: ws)) := by
  refine ⟨rfl, Json.parse_stringify j, rfl, fun tag => rfl, ?_⟩
  intro rest bs ws h
  simp [formatOpenAIResponse, processOutputItem, h]

theorem C8_json_fallbacks_witness :
    formatOpenAIResponse [.unknown .null] =
      .ok ([.text "null"], ["Unknown response output item type: null"]) :=
  (C8_json_fallbacks .null .USER).2.2.2.2 [] [] [] (by rfl)

/-- C9: both translators are deterministic: equal inputs give equal
outputs; in this embedding both are total functions over immutable values,
so they read and write no shared mutable state. -/
theorem C9_translators_deterministic (ms1 ms2 : List Message)
    (os1 os2 : List OutputItem) :
    (ms1 = ms2 → formatMessagesForOpenAI ms1 = formatMessagesForOpenAI ms2)
    ∧ (os1 = os2 → formatOpenAIResponse os1 = formatOpenAIResponse os2) :=
  ⟨fun h => by rw [h], fun h => by rw [h]⟩

theorem C9_translators_deterministic_witness :
    formatMessagesForOpenAI [] = formatMessagesForOpenAI []
    ∧ formatOpenAIResponse [] = formatOpenAIResponse [] :=
  ⟨(C9_translators_deterministic [] [] [] []).1 rfl,
   (C9_translators_deterministic [] [] [] []).2 rfl⟩

/-- C10: in a message that holds a UserAction block among blocks of other
kinds, the fast path is not taken; the UserAction block reaches the
default branch of the per-block switch and becomes exactly one user
message whose input_text is the JSON serialization of the whole block,
children included, and that serialization parses back to the encoded
block. -/
theorem C10_userAction_mixed_path (m : Message)
    (h0 : BlockList.any isUserActionContentBlock m.content = true)
    (h1 : BlockList.all isUserActionContentBlock m.content = false) :
    formatMessage m = formatBlocks m.role m.content
    ∧ (∀ cs, formatBlock m.role (.userAction cs) =
        [.message "user" [.inputText (Json.stringify (encodeBlock (.userAction cs)))]])
    ∧ (∀ cs, encodeBlock (.userAction cs) =
        .obj (.cons "type" (.str "user_action")
          (.cons "content" (.arr (encodeBlocks cs)) .nil)))
    ∧ (∀ cs, Json.parse (Json.stringify (encodeBlock (.userAction cs))) =
        some (encodeBlock (.userAction cs))) := by
  have _unused := h0
  exact ⟨by simp [formatMessage, h1], fun cs => rfl, fun cs => rfl,
    fun cs => Json.parse_stringify _⟩

theorem C10_userAction_mixed_path_witness :
    formatMessage ⟨.USER, .cons (.userAction .nil) (.cons (.text "x") .nil)⟩ =
      formatBlocks .USER (.cons (.userAction .nil) (.cons (.text "x") .nil)) :=
  (C10_userAction_mixed_path ⟨.USER, .cons (.userAction .nil) (.cons (.text "x") .nil)⟩
    (by rfl) (by rfl)).1
